import Mathlib

/-!
Verification of the pixelsort span-selection and hue-reordering pipeline.

The definitions below are a shallow embedding of the Go source
(`generateLuminanceMask`, `generateSortSpans`, `getHue`, `sortSpans`).
An image (Go `image.RGBA`) is modelled as a list of rows of 8-bit RGBA
samples, with the origin at (0,0) as the program's output buffers have.
The luminance pipeline of `generateLuminanceMask` is modelled with
IEEE-754 binary64 semantics (`fl64`), since its threshold comparison is
sensitive to float64 rounding at exact boundaries. `getHue` is modelled
by exact rational arithmetic, which agrees with the float64 computation
except at half-degree rounding ties; the hue properties proved below
hold of both (see the `getHue16` doc comment).
-/

/-- An 8-bit RGBA sample, as stored in Go's `image.RGBA` and in the
`color.RGBA` constants of the source. Fields are the raw 8-bit channel
values (0–255 for colors produced by the program). -/
structure RGBA where
  r : Nat
  g : Nat
  b : Nat
  a : Nat
deriving DecidableEq, Repr

/-- `color.RGBA{255, 255, 255, 255}` (the mask's "selected" color). -/
def RGBAWhite : RGBA := ⟨255, 255, 255, 255⟩

/-- `color.RGBA{0, 0, 0, 255}` (the mask's "unselected" color). -/
def RGBABlack : RGBA := ⟨0, 0, 0, 255⟩

/-- `color.RGBA{255, 0, 255, 255}` (the transparent-pixel sentinel). -/
def RGBAMagenta : RGBA := ⟨255, 0, 255, 255⟩

/-- Go `color.RGBA.RGBA()` expands an 8-bit channel `v` to 16 bits as
`v | v << 8`, which equals `257 * v`. -/
def chan16 (v : Nat) : Nat := 257 * v

/-- An image: a list of scan lines (rows), each a list of RGBA samples.
Row `y`, column `x` corresponds to Go's `img.At(x, y)`. -/
abbrev Grid := List (List RGBA)

/-- Models `img.At(x, y)`: out-of-bounds reads return the zero RGBA
value, exactly as Go's `image.RGBA.At` does outside `Bounds()`. -/
def pixAt (g : Grid) (x y : Nat) : RGBA :=
  ((g[y]?.getD [])[x]?.getD ⟨0, 0, 0, 0⟩)

/-- Models `img.Set(x, y, c)`: writes inside bounds, no-op outside,
exactly as Go's `image.RGBA.Set`. -/
def setPix (g : Grid) (x y : Nat) (c : RGBA) : Grid :=
  g.set y ((g[y]?.getD []).set x c)

/-! ## Hue (`getHue` in the source) -/

/-- The pre-rounding hue value of `getHue` on the 16-bit channel values,
in exact rational arithmetic: six-sector hue times 60, normalised into
the nonnegative range by adding 360 to negative results. Mirrors the
branch structure of the source. -/
def hueRat (red green blue : ℚ) : ℚ :=
  let mn : ℚ := min (min red green) blue
  let mx : ℚ := max (max red green) blue
  let hue : ℚ :=
    if mx = red then (green - blue) / (mx - mn)
    else if mx = green then 2 + (blue - red) / (mx - mn)
    else 4 + (red - green) / (mx - mn)
  let hue60 := hue * 60
  if hue60 < 0 then hue60 + 360 else hue60

/-- `getHue` on the 16-bit channel values returned by `c.RGBA()`:
achromatic inputs give 0, otherwise the normalised hue rounded to the
nearest integer degree. This is the exact-value model of the float64
computation: all rounded values are nonnegative, where Go's
round-half-away-from-zero `math.Round` agrees with `round` on the exact
value. Go's float64 evaluation can differ from the exact value at
half-degree ties (e.g. RGBA(0,24,1,255) has exact hue 122.5, which this
model rounds to 123, while the float64 value 122.49999999999999 rounds
to 122); the properties proved below (range, achromatic zero, the
attained 360, and orderedness under the program's own comparison) hold
of both. -/
def getHue16 (red green blue : ℚ) : ℤ :=
  if min (min red green) blue = max (max red green) blue then 0
  else round (hueRat red green blue)

/-- `getHue(c)` for an 8-bit RGBA color: the source first expands the
channels via `c.RGBA()`. -/
def getHue (c : RGBA) : ℤ :=
  getHue16 (chan16 c.r) (chan16 c.g) (chan16 c.b)

/-! ## Luminance mask (`generateLuminanceMask` in the source)

The source computes the perceived luminance in float64
(`math.Sqrt(perceivedR*math.Pow(float64(r), 2) + ...)`), so the mask is
modelled over IEEE-754 binary64 arithmetic: each operation rounds its
exact result to the nearest representable double (ties to even). This
matters at the thresholds: the float64 luminance can land one unit in
the last place below the exact value (e.g. pixel (15,15,15), whose
exact luminance is exactly 3855, computes as 3854.9999999999995). -/

/-- Round a real to the nearest integer, ties to even — the rounding
IEEE-754 applies to the scaled 53-bit significand. -/
noncomputable def roundEvenR (x : ℝ) : ℤ :=
  if x - ⌊x⌋ < 1/2 then ⌊x⌋
  else if 1/2 < x - ⌊x⌋ then ⌊x⌋ + 1
  else if 2 ∣ ⌊x⌋ then ⌊x⌋ else ⌊x⌋ + 1

/-- IEEE-754 binary64 rounding (round to nearest, ties to even): scale
the value into the 53-bit significand range of its binade, round to an
integer, and scale back. Faithful for values in the normal range, which
covers every value this program computes (no overflow or subnormals
arise from 16-bit channels and `int` thresholds). -/
noncomputable def fl64 (x : ℝ) : ℝ :=
  if x = 0 then 0
  else (roundEvenR (x * 2 ^ ((52 : ℤ) - Int.log 2 |x|)) : ℝ)
    * 2 ^ (Int.log 2 |x| - 52)

/-- The exact value of Go's `perceivedR float64 = 0.299`: the binary64
double nearest 0.299. -/
noncomputable def perceivedR64 : ℝ := 5386305154335113 / 2 ^ 54

/-- The exact value of Go's `perceivedG float64 = 0.587`. -/
noncomputable def perceivedG64 : ℝ := 2643612981266481 / 2 ^ 52

/-- The exact value of Go's `perceivedB float64 = 0.114`. -/
noncomputable def perceivedB64 : ℝ := 8214565720323785 / 2 ^ 56

/-- Go's float64 evaluation of
`math.Sqrt(perceivedR*math.Pow(float64(r), 2) + perceivedG*… + perceivedB*…)`
over the 16-bit channel values. `float64(r)` and `math.Pow(float64(r), 2)`
are exact here (the channel is < 2¹⁶ so its square is < 2³² < 2⁵³);
each multiplication, the left-associated additions, and the correctly
rounded `math.Sqrt` each round once. -/
noncomputable def goFloatLuminance (p : RGBA) : ℝ :=
  fl64 (Real.sqrt (fl64
    (fl64 (fl64 (perceivedR64 * (chan16 p.r : ℝ) ^ 2)
         + fl64 (perceivedG64 * (chan16 p.g : ℝ) ^ 2))
     + fl64 (perceivedB64 * (chan16 p.b : ℝ) ^ 2))))

/-- One pixel of the luminance mask: the source's branch
`perceivedLuminance < float64(lo) || perceivedLuminance > float64(hi)`,
with the float64 luminance. `float64(lo)` is exact for every `int`
threshold below 2⁵³, so it is modelled as the real cast. -/
noncomputable def maskPixel (p : RGBA) (lo hi : ℤ) (invert : Bool) : RGBA :=
  if goFloatLuminance p < (lo : ℝ) ∨ (hi : ℝ) < goFloatLuminance p then
    if !invert then RGBABlack else RGBAWhite
  else
    if !invert then RGBAWhite else RGBABlack

/-- `generateLuminanceMask(original, lo, hi, invert)`: `none` models the
error returns (`lo > hi`, or a negative threshold); otherwise the mask
grid with every pixel set to white or black by the threshold test. -/
noncomputable def generateLuminanceMask (original : Grid) (lo hi : ℤ) (invert : Bool) :
    Option Grid :=
  if hi < lo then none
  else if lo < 0 ∨ hi < 0 then none
  else some (original.map (fun row => row.map (fun p => maskPixel p lo hi invert)))

/-! ## Span detection (`generateSortSpans` in the source) -/

/-- A detected run: its mask color, scan-line row, start offset, and
length, exactly the fields of the Go `Span` struct. -/
structure Span where
  color : RGBA
  row : Nat
  idx : Nat
  len : Nat
deriving DecidableEq, Repr

/-- The inner loop of `generateSortSpans` over the remainder of one scan
line. `x` is the current column, `keep` and `span` the loop state. On a
color change the closed run is emitted if `keep` holds and its length
reaches `minLen`; at the last column the current run is emitted
unconditionally whenever `keep` holds (the terminal flush). -/
def scanRowAux (y : Nat) (minLen : ℤ) :
    List RGBA → Nat → Bool → Span → List Span
  | [], _, _, _ => []
  | c :: rest, x, keep, span =>
      if c = span.color then
        let sp : Span := ⟨span.color, span.row, span.idx, span.len + 1⟩
        (if rest.isEmpty && keep then [sp] else [])
          ++ scanRowAux y minLen rest (x + 1) keep sp
      else
        let keep2 := !keep
        let sp : Span := ⟨c, y, x, 1⟩
        (if keep && decide (minLen ≤ (span.len : ℤ)) then [span] else [])
          ++ ((if rest.isEmpty && keep2 then [sp] else [])
          ++ scanRowAux y minLen rest (x + 1) keep2 sp)

/-- One iteration of the outer loop of `generateSortSpans`: scan row `y`.
The initial state is `keep = (first pixel = white)` and a zero-length
run of the first pixel's color starting at column 0. -/
def generateSortSpansRow (row : List RGBA) (y : Nat) (minLen : ℤ) : List Span :=
  match row with
  | [] => []
  | c :: _ => scanRowAux y minLen row 0 (decide (c = RGBAWhite)) ⟨c, y, 0, 0⟩

/-- Rows of the mask processed in order, `y0` the index of the first. -/
def generateSortSpansAux (minLen : ℤ) : Grid → Nat → List Span
  | [], _ => []
  | row :: rest, y0 =>
      generateSortSpansRow row y0 minLen ++ generateSortSpansAux minLen rest (y0 + 1)

/-- `generateSortSpans(mask, minSpanLen)`: all spans of the mask, rows
scanned top to bottom. -/
def generateSortSpans (mask : Grid) (minLen : ℤ) : List Span :=
  generateSortSpansAux minLen mask 0

/-! ## Span sorting (`sortSpans` in the source) -/

/-- The comparison `sort.Slice` is given: descending hue when `reverse`
is unset, ascending hue when it is set. -/
def hueLe (reverse : Bool) (x y : RGBA) : Bool :=
  if !reverse then decide (getHue y ≤ getHue x) else decide (getHue x ≤ getHue y)

/-- The pixel reordering of one span. Go's `sort.Slice` guarantees the
result is a permutation of the input ordered by the comparison; it is
modelled by `mergeSort`, which satisfies the same contract. -/
def sortPixels (reverse : Bool) (cs : List RGBA) : List RGBA :=
  cs.mergeSort (hueLe reverse)

/-- The gather loop `c[i] = src.At(span.idx+i, span.row)`. -/
def spanPixels (src : Grid) (s : Span) : List RGBA :=
  (List.range s.len).map (fun i => pixAt src (s.idx + i) s.row)

/-- A sorted pixel as actually written: the source writes the pixel and
then overwrites it with the magenta sentinel when its 16-bit alpha is 0
(`c.RGBA()` alpha is `257·a`, zero exactly when the stored `a` is 0). -/
def substPix (c : RGBA) : RGBA :=
  if c.a = 0 then RGBAMagenta else c

/-- The write-back loop: pixel `i` of the sorted sequence is written at
column `idx + i`, transparent pixels as the magenta sentinel. -/
def writeSpanAux (row : Nat) : Nat → List RGBA → Grid → Grid
  | _, [], g => g
  | idx, c :: rest, g =>
      writeSpanAux row (idx + 1) rest (setPix g idx row (substPix c))

/-- Span `s` covers pixel position `(x, y)`. -/
def spanCovers (s : Span) (x y : Nat) : Prop :=
  y = s.row ∧ s.idx ≤ x ∧ x < s.idx + s.len

/-- `sortSpans(src, spans, reverse)`: starting from a copy of `src`
(Go allocates a fresh buffer and draws `src` into it), each span of
length > 1 has its source pixels gathered, sorted by hue, and written
back at the span's coordinates; shorter spans are skipped. -/
def sortSpans (src : Grid) (spans : List Span) (reverse : Bool) : Grid :=
  spans.foldl
    (fun out s =>
      if 1 < s.len then
        writeSpanAux s.row s.idx (sortPixels reverse (spanPixels src s)) out
      else out)
    src

/-- The length of the trailing run of white pixels of a scan line. -/
def trailingWhite (row : List RGBA) : Nat :=
  (row.reverse.takeWhile (fun c => decide (c = RGBAWhite))).length

/-- Two spans cover disjoint pixel positions: they lie on different scan
lines, or their column intervals `[idx, idx+len)` do not meet. -/
def spanDisjoint (s t : Span) : Prop :=
  s.row ≠ t.row ∨ s.idx + s.len ≤ t.idx ∨ t.idx + t.len ≤ s.idx

/-- The spec's luminance formula, stated in exact real arithmetic over
the 16-bit channel values:
`L = sqrt(0.299·R² + 0.587·G² + 0.114·B²)`. Used only to state claims;
the program computes this expression in float64 (`goFloatLuminance`),
which can differ from the exact value by one unit in the last place —
enough to flip the threshold comparison at exact boundaries. -/
noncomputable def specLuminance (p : RGBA) : ℝ :=
  Real.sqrt ((299 * (chan16 p.r : ℝ) ^ 2 + 587 * (chan16 p.g : ℝ) ^ 2
    + 114 * (chan16 p.b : ℝ) ^ 2) / 1000)

/-! ## C2: span detection on the line W W W B B W W -/

/-- Claim C2 counterexample: with `min_length = 4` the detector does NOT
yield an empty span list on the line `W W W B B W W` — the trailing run
`[5,7)` is flushed unconditionally, so the claim as stated is false. -/
theorem C2_counterexample :
    generateSortSpans
        [[RGBAWhite, RGBAWhite, RGBAWhite, RGBABlack, RGBABlack, RGBAWhite, RGBAWhite]]
        4 ≠ [] := by
  decide

/-- Claim C2 (amended): on the single line `W W W B B W W`, detection with
`min_length = 2` yields exactly the spans `[0,3)` and `[5,7)`; with
`min_length = 4` it yields exactly the trailing span `[5,7)` (emitted by
the unconditional terminal flush), not no spans. -/
theorem C2_line_spans :
    generateSortSpans
        [[RGBAWhite, RGBAWhite, RGBAWhite, RGBABlack, RGBABlack, RGBAWhite, RGBAWhite]]
        2 = [⟨RGBAWhite, 0, 0, 3⟩, ⟨RGBAWhite, 0, 5, 2⟩]
    ∧ generateSortSpans
        [[RGBAWhite, RGBAWhite, RGBAWhite, RGBABlack, RGBABlack, RGBAWhite, RGBAWhite]]
        4 = [⟨RGBAWhite, 0, 5, 2⟩] := by
  decide

/-! ## C9: threshold validation in generateLuminanceMask -/

/-- Claim C9: `generateLuminanceMask` returns an error (no mask) exactly
when `lo > hi`, or `lo < 0`, or `hi < 0`; in particular it errors for
`lo = 100, hi = 50` and for `lo = -1, hi = 10`. -/
theorem C9_threshold_validation :
    (∀ (src : Grid) (lo hi : ℤ) (invert : Bool),
      generateLuminanceMask src lo hi invert = none ↔ (lo > hi ∨ lo < 0 ∨ hi < 0))
    ∧ (∀ (src : Grid) (invert : Bool),
        generateLuminanceMask src 100 50 invert = none)
    ∧ (∀ (src : Grid) (invert : Bool),
        generateLuminanceMask src (-1) 10 invert = none) := by
  refine ⟨fun src lo hi invert => ?_, fun src invert => ?_, fun src invert => ?_⟩
  · unfold generateLuminanceMask
    split_ifs with h1 h2 <;> simp <;> omega
  · unfold generateLuminanceMask
    norm_num
  · unfold generateLuminanceMask
    norm_num

/-! ## C10: minSpanLen below 1 behaves as minSpanLen = 1 -/

/-- `scanRowAux` ignores the difference between a `minLen ≤ 1` and
`minLen = 1` once the running span has length at least 1 (every emission
point compares a length that is already ≥ 1). -/
theorem scanRowAux_minLen_le_one (y : Nat) (m : ℤ) (hm : m ≤ 1) :
    ∀ (l : List RGBA) (x : Nat) (keep : Bool) (span : Span),
      1 ≤ span.len →
      scanRowAux y m l x keep span = scanRowAux y 1 l x keep span := by
  intro l
  induction l with
  | nil => intro x keep span _; rfl
  | cons c rest ih =>
      intro x keep span hlen
      by_cases hc : c = span.color
      · simp only [scanRowAux, if_pos hc]
        rw [ih (x + 1) keep _ (by simp)]
      · simp only [scanRowAux, if_neg hc]
        have h1 : decide (m ≤ (span.len : ℤ)) = true := by
          simp only [decide_eq_true_iff]
          have : (1 : ℤ) ≤ (span.len : ℤ) := by exact_mod_cast hlen
          omega
        have h2 : decide ((1 : ℤ) ≤ (span.len : ℤ)) = true := by
          simp only [decide_eq_true_iff]
          exact_mod_cast hlen
        rw [h1, h2, ih (x + 1) (!keep) _ (by simp)]

/-- One row behaves identically for `minLen ≤ 1` and `minLen = 1`. -/
theorem generateSortSpansRow_minLen_le_one (row : List RGBA) (y : Nat)
    (m : ℤ) (hm : m ≤ 1) :
    generateSortSpansRow row y m = generateSortSpansRow row y 1 := by
  cases row with
  | nil => rfl
  | cons c rest =>
      simp only [generateSortSpansRow, scanRowAux, if_true, eq_self_iff_true]
      rw [scanRowAux_minLen_le_one y m hm rest (0 + 1) _ _ (by simp)]

/-- Claim C10: for every mask, span detection with `min_length < 1`
yields exactly the spans that `min_length = 1` would yield (the code
clamps implicitly: every emission point compares a run length ≥ 1). -/
theorem C10_minLen_clamp (mask : Grid) (m : ℤ) (hm : m < 1) :
    generateSortSpans mask m = generateSortSpans mask 1 := by
  have hm1 : m ≤ 1 := le_of_lt hm
  unfold generateSortSpans
  suffices h : ∀ (g : Grid) (y0 : Nat),
      generateSortSpansAux m g y0 = generateSortSpansAux 1 g y0 from h mask 0
  intro g
  induction g with
  | nil => intro y0; rfl
  | cons row rest ih =>
      intro y0
      simp only [generateSortSpansAux]
      rw [generateSortSpansRow_minLen_le_one row y0 m hm1, ih (y0 + 1)]

/-- Witness for C10 at a concrete mask and `min_length = 0`. -/
theorem C10_minLen_clamp_witness :
    generateSortSpans [[RGBAWhite, RGBABlack, RGBAWhite]] 0
      = generateSortSpans [[RGBAWhite, RGBABlack, RGBAWhite]] 1 :=
  C10_minLen_clamp [[RGBAWhite, RGBABlack, RGBAWhite]] 0 (by decide)

/-! ## C3: range of getHue -/

/-- A quotient of rationals with numerator bounded by the positive
denominator in absolute value lies in `[-1, 1]`. -/
theorem div_abs_le_one (a d : ℚ) (hd : 0 < d) (h1 : -d ≤ a) (h2 : a ≤ d) :
    -1 ≤ a / d ∧ a / d ≤ 1 := by
  constructor
  · rw [le_div_iff₀ hd]; linarith
  · rw [div_le_one hd]; linarith

/-- In the chromatic case, the exact (pre-rounding) hue lies in
`[0, 360)`: each sector quotient lies in `[-1, 1]`, so the scaled hue
lies in `[-60, 300]` and normalisation lands in `[0, 360)`. -/
theorem hueRat_bounds (red green blue : ℚ)
    (h : min (min red green) blue < max (max red green) blue) :
    0 ≤ hueRat red green blue ∧ hueRat red green blue < 360 := by
  simp only [hueRat]
  set mn := min (min red green) blue with hmn
  set mx := max (max red green) blue with hmx
  have hrl : mn ≤ red := le_trans (min_le_left _ _) (min_le_left _ _)
  have hgl : mn ≤ green := le_trans (min_le_left _ _) (min_le_right _ _)
  have hbl : mn ≤ blue := min_le_right _ _
  have hru : red ≤ mx := le_trans (le_max_left _ _) (le_max_left _ _)
  have hgu : green ≤ mx := le_trans (le_max_right _ _) (le_max_left _ _)
  have hbu : blue ≤ mx := le_max_right _ _
  have hd : 0 < mx - mn := sub_pos.2 h
  split_ifs with h1 h2 h3 h4 h5
  · obtain ⟨q1, q2⟩ := div_abs_le_one (green - blue) (mx - mn) hd (by linarith) (by linarith)
    constructor <;> linarith
  · obtain ⟨q1, q2⟩ := div_abs_le_one (green - blue) (mx - mn) hd (by linarith) (by linarith)
    constructor <;> linarith
  · obtain ⟨q1, q2⟩ := div_abs_le_one (blue - red) (mx - mn) hd (by linarith) (by linarith)
    constructor <;> linarith
  · obtain ⟨q1, q2⟩ := div_abs_le_one (blue - red) (mx - mn) hd (by linarith) (by linarith)
    constructor <;> linarith
  · obtain ⟨q1, q2⟩ := div_abs_le_one (red - green) (mx - mn) hd (by linarith) (by linarith)
    constructor <;> linarith
  · obtain ⟨q1, q2⟩ := div_abs_le_one (red - green) (mx - mn) hd (by linarith) (by linarith)
    constructor <;> linarith

/-- Rounding keeps the hue inside `[0, 360]` — but only the closed upper
bound survives rounding, since values just below 360 round up to 360. -/
theorem getHue16_range (red green blue : ℚ) :
    0 ≤ getHue16 red green blue ∧ getHue16 red green blue ≤ 360 := by
  unfold getHue16
  split_ifs with h
  · simp
  · have hle : min (min red green) blue ≤ max (max red green) blue :=
      le_trans (min_le_right _ _) (le_max_right _ _)
    obtain ⟨h0, h1⟩ := hueRat_bounds red green blue (lt_of_le_of_ne hle h)
    rw [round_eq]
    constructor
    · exact Int.le_floor.2 (by push_cast; linarith)
    · have hlt : (⌊hueRat red green blue + 1 / 2⌋ : ℤ) < 361 :=
        Int.floor_lt.2 (by push_cast; linarith)
      omega

/-- Claim C3 counterexample: the color `RGBA{255, 0, 1, 255}` has exact
hue `360 − 60·257/65535 ≈ 359.765`, which `math.Round` rounds to 360 —
`getHue` returns 360, outside the claimed half-open range `[0, 360)`. -/
theorem C3_counterexample :
    getHue ⟨255, 0, 1, 255⟩ = 360 ∧ ¬ getHue ⟨255, 0, 1, 255⟩ < 360 := by
  have h : getHue ⟨255, 0, 1, 255⟩ = 360 := by
    norm_num [getHue, getHue16, hueRat, chan16, min_def, max_def, round_eq]
  exact ⟨h, by omega⟩

/-- Claim C3 (amended): for every color, `getHue` returns a value in the
closed range `[0, 360]` (the value 360 is attained: hues just below 360
round up to it), and achromatic colors (R = G = B) return exactly 0. -/
theorem C3_getHue_range (c : RGBA) :
    0 ≤ getHue c ∧ getHue c ≤ 360 ∧ (c.r = c.g → c.g = c.b → getHue c = 0) := by
  refine ⟨(getHue16_range _ _ _).1, (getHue16_range _ _ _).2, fun h1 h2 => ?_⟩
  unfold getHue getHue16 chan16
  rw [h1, h2]
  simp

/-- Witness for C3 at a concrete achromatic color. -/
theorem C3_getHue_range_witness : getHue ⟨7, 7, 7, 255⟩ = 0 :=
  (C3_getHue_range ⟨7, 7, 7, 255⟩).2.2 rfl rfl

/-! ## C1: unconditional flush of the trailing selected run -/

/-- Appending a white pixel extends the trailing white run by one. -/
theorem trailingWhite_concat (P : List RGBA) :
    trailingWhite (P ++ [RGBAWhite]) = trailingWhite P + 1 := by
  simp [trailingWhite, List.reverse_append, List.takeWhile_cons]

/-- A line whose last pixel is not white has no trailing white run. -/
theorem trailingWhite_head_not {P : List RGBA} {d : RGBA} {t : List RGBA}
    (hP : P.reverse = d :: t) (hd : ¬ d = RGBAWhite) : trailingWhite P = 0 := by
  simp [trailingWhite, hP, List.takeWhile_cons, hd]

/-- A nonempty maximal run read off by `takeWhile` pins the last element
of the prefix. -/
theorem takeWhile_head_of_len {P : List RGBA} {col : RGBA}
    (h1 : 1 ≤ (P.reverse.takeWhile (fun c => decide (c = col))).length) :
    ∃ t, P.reverse = col :: t := by
  cases hP : P.reverse with
  | nil => rw [hP] at h1; simp at h1
  | cons d t =>
      rw [hP, List.takeWhile_cons] at h1
      by_cases hd : d = col
      · exact ⟨t, by rw [hd]⟩
      · simp [hd] at h1

/-- Loop invariant of the inner scan: on a binary (white/black) line
whose remainder ends in a white pixel, the scan emits a span for the
trailing run. `P` is the already-processed prefix; the state satisfies
`keep ↔ the current run is white`, the current run covers
`[span.idx, P.length)`, and `span.len` is the length of the maximal
constant suffix of `P`. -/
theorem scanRowAux_trailing (y : Nat) (minLen : ℤ) :
    ∀ (l P : List RGBA) (keep : Bool) (span : Span),
      (∀ c ∈ l, c = RGBAWhite ∨ c = RGBABlack) →
      (span.color = RGBAWhite ∨ span.color = RGBABlack) →
      (keep = true ↔ span.color = RGBAWhite) →
      span.row = y →
      span.idx + span.len = P.length →
      1 ≤ span.len →
      span.len = (P.reverse.takeWhile (fun c => decide (c = span.color))).length →
      l.getLast? = some RGBAWhite →
      ∃ s ∈ scanRowAux y minLen l P.length keep span,
        s.color = RGBAWhite ∧ s.row = y ∧
        s.idx + s.len = P.length + l.length ∧
        s.len = trailingWhite (P ++ l) ∧ 1 ≤ s.len := by
  intro l
  induction l with
  | nil => intro P keep span _ _ _ _ _ _ _ hlast; simp at hlast
  | cons c rest ih =>
      intro P keep span hbin hscol hkeep hrow hidx hlen1 hlenEq hlast
      have hcbin : c = RGBAWhite ∨ c = RGBABlack := hbin c (by simp)
      obtain ⟨t0, hPrev⟩ := takeWhile_head_of_len (le_of_le_of_eq hlen1 hlenEq)
      cases rest with
      | nil =>
          have hcW : c = RGBAWhite := by simpa using hlast
          by_cases hc : c = span.color
          · have hsW : span.color = RGBAWhite := hc ▸ hcW
            have hkT : keep = true := hkeep.2 hsW
            refine ⟨⟨span.color, span.row, span.idx, span.len + 1⟩, ?_, hsW, hrow, ?_, ?_, ?_⟩
            · simp [scanRowAux, if_pos hc, hkT]
            · show span.idx + (span.len + 1) = P.length + 1
              omega
            · show span.len + 1 = trailingWhite (P ++ [c])
              rw [hcW, trailingWhite_concat]
              have : trailingWhite P = span.len := by
                rw [hlenEq, hsW]; rfl
              omega
            · show 1 ≤ span.len + 1
              omega
          · have hsB : span.color = RGBABlack := by
              rcases hscol with h | h
              · exact absurd (h ▸ hcW ▸ rfl : c = span.color) hc
              · exact h
            have hkF : keep = false := by
              cases hkp : keep
              · rfl
              · exact absurd (hsB ▸ hkeep.1 hkp) (by decide)
            refine ⟨⟨c, y, P.length, 1⟩, ?_, hcW, rfl, ?_, ?_, ?_⟩
            · simp [scanRowAux, if_neg hc, hkF]
            · show P.length + 1 = P.length + 1
              rfl
            · show 1 = trailingWhite (P ++ [c])
              rw [hcW, trailingWhite_concat,
                trailingWhite_head_not hPrev (by rw [hsB]; decide)]
            · exact le_refl 1
      | cons d t =>
          have hlast2 : (d :: t).getLast? = some RGBAWhite := by
            rwa [List.getLast?_cons_cons] at hlast
          by_cases hc : c = span.color
          · -- run continues into the tail
            obtain ⟨s, hsmem, hsW, hsrow, hsidx, hslen, hslen1⟩ :=
              ih (P ++ [c]) keep ⟨span.color, span.row, span.idx, span.len + 1⟩
                (fun e he => hbin e (by simp [he]))
                hscol (by simpa using hkeep) hrow
                (by simp; omega) (by simp)
                (by
                  show span.len + 1
                    = ((P ++ [c]).reverse.takeWhile (fun e => decide (e = span.color))).length
                  rw [List.reverse_append]
                  simp only [List.reverse_singleton, List.singleton_append,
                    List.takeWhile_cons]
                  have hdc : decide (c = span.color) = true := by simp [hc]
                  rw [hdc]
                  simp only [if_true, List.length_cons]
                  omega)
                hlast2
            refine ⟨s, ?_, hsW, hsrow, ?_, ?_, hslen1⟩
            · have hstep : scanRowAux y minLen (c :: d :: t) P.length keep span
                  = scanRowAux y minLen (d :: t) (P.length + 1) keep
                      ⟨span.color, span.row, span.idx, span.len + 1⟩ := by
                simp [scanRowAux, if_pos hc]
              rw [hstep]
              simpa using hsmem
            · simp at hsidx ⊢
              omega
            · rw [List.append_assoc] at hslen
              simpa using hslen
          · -- color change, recursion with the new selected run
            have hkeep2 : (!keep) = true ↔ c = RGBAWhite := by
              rcases hcbin with hcW | hcB
              · rcases hscol with hsW | hsB
                · exact absurd (hsW ▸ hcW ▸ rfl : c = span.color) hc
                · have : keep = false := by
                    cases hkp : keep
                    · rfl
                    · exact absurd (hsB ▸ hkeep.1 hkp) (by decide)
                  simp [this, hcW]
              · rcases hscol with hsW | hsB
                · have : keep = true := hkeep.2 hsW
                  simp [this, hcB]
                  decide
                · exact absurd (hsB ▸ hcB ▸ rfl : c = span.color) hc
            obtain ⟨s, hsmem, hsW, hsrow, hsidx, hslen, hslen1⟩ :=
              ih (P ++ [c]) (!keep) ⟨c, y, P.length, 1⟩
                (fun e he => hbin e (by simp [he]))
                hcbin hkeep2 rfl
                (by simp) (le_refl 1)
                (by
                  show (1 : Nat)
                    = ((P ++ [c]).reverse.takeWhile (fun e => decide (e = c))).length
                  have hsc : ¬ span.color = c := fun h => hc h.symm
                  have h0 : (List.takeWhile (fun e => decide (e = c))
                      (span.color :: t0)).length = 0 := by
                    rw [List.takeWhile_cons]
                    simp [hsc]
                  simp [List.reverse_append, List.takeWhile_cons, hPrev, h0, hsc])
                hlast2
            refine ⟨s, ?_, hsW, hsrow, ?_, ?_, hslen1⟩
            · have hstep : scanRowAux y minLen (c :: d :: t) P.length keep span
                  = (if keep && decide (minLen ≤ (span.len : ℤ)) then [span] else [])
                    ++ ((if (d :: t).isEmpty && !keep then [⟨c, y, P.length, 1⟩] else [])
                    ++ scanRowAux y minLen (d :: t) (P.length + 1) (!keep)
                        ⟨c, y, P.length, 1⟩) := by
                simp [scanRowAux, if_neg hc]
              rw [hstep]
              refine List.mem_append_right _ (List.mem_append_right _ ?_)
              simpa using hsmem
            · simp at hsidx ⊢
              omega
            · rw [List.append_assoc] at hslen
              simpa using hslen

/-- A scan line of white/black pixels ending in white always yields a
span for its trailing white run, for every `minLen`. -/
theorem generateSortSpansRow_trailing (row : List RGBA) (y : Nat) (minLen : ℤ)
    (hbin : ∀ c ∈ row, c = RGBAWhite ∨ c = RGBABlack)
    (hlast : row.getLast? = some RGBAWhite) :
    ∃ s ∈ generateSortSpansRow row y minLen,
      s.color = RGBAWhite ∧ s.row = y ∧ s.idx + s.len = row.length ∧
      s.len = trailingWhite row ∧ 1 ≤ s.len := by
  cases row with
  | nil => simp at hlast
  | cons c rest =>
      cases rest with
      | nil =>
          have hcW : c = RGBAWhite := by simpa using hlast
          refine ⟨⟨c, y, 0, 1⟩, ?_, hcW, rfl, rfl, ?_, le_refl 1⟩
          · simp [generateSortSpansRow, scanRowAux, hcW]
          · simp [trailingWhite, hcW, List.takeWhile_cons]
      | cons d t =>
          have hlast2 : (d :: t).getLast? = some RGBAWhite := by
            rwa [List.getLast?_cons_cons] at hlast
          obtain ⟨s, hsmem, hsW, hsrow, hsidx, hslen, hslen1⟩ :=
            scanRowAux_trailing y minLen (d :: t) [c] (decide (c = RGBAWhite)) ⟨c, y, 0, 1⟩
              (fun e he => hbin e (by simp [he]))
              (hbin c (by simp))
              (by simp)
              rfl
              (by simp)
              (le_refl 1)
              (by simp [List.takeWhile_cons])
              hlast2
          refine ⟨s, ?_, hsW, hsrow, ?_, ?_, hslen1⟩
          · have hstep : generateSortSpansRow (c :: d :: t) y minLen
                = scanRowAux y minLen (d :: t) 1 (decide (c = RGBAWhite)) ⟨c, y, 0, 1⟩ := by
              simp [generateSortSpansRow, scanRowAux]
            rw [hstep]
            simpa using hsmem
          · simp at hsidx ⊢
            omega
          · simpa using hslen

/-- Spans found in row `y` of the grid remainder appear in the combined
span list. -/
theorem generateSortSpansAux_mem (minLen : ℤ) :
    ∀ (g : Grid) (y0 y : Nat) (row : List RGBA), g[y]? = some row →
      ∀ s ∈ generateSortSpansRow row (y0 + y) minLen,
        s ∈ generateSortSpansAux minLen g y0 := by
  intro g
  induction g with
  | nil => intro y0 y row h; simp at h
  | cons r0 rest ih =>
      intro y0 y row h s hs
      cases y with
      | zero =>
          rw [List.getElem?_cons_zero] at h
          injection h with h
          subst h
          exact List.mem_append_left _ (by simpa using hs)
      | succ y' =>
          rw [List.getElem?_cons_succ] at h
          refine List.mem_append_right _ (ih (y0 + 1) y' row h s ?_)
          have harith : y0 + (y' + 1) = (y0 + 1) + y' := by omega
          rwa [harith] at hs

/-- Claim C1: for every mask of white/black pixels and every minSpanLen,
a scan line that ends while still inside a selected (white) run makes
`generateSortSpans` emit that trailing run as a Span — its length being
the trailing white run's length, regardless of `minSpanLen`. -/
theorem C1_terminal_flush (mask : Grid) (minLen : ℤ) (y : Nat) (row : List RGBA)
    (hrow : mask[y]? = some row)
    (hbin : ∀ c ∈ row, c = RGBAWhite ∨ c = RGBABlack)
    (hlast : row.getLast? = some RGBAWhite) :
    ∃ s ∈ generateSortSpans mask minLen,
      s.color = RGBAWhite ∧ s.row = y ∧ s.idx + s.len = row.length ∧
      s.len = trailingWhite row ∧ 1 ≤ s.len := by
  obtain ⟨s, hmem, hprops⟩ := generateSortSpansRow_trailing row y minLen hbin hlast
  refine ⟨s, generateSortSpansAux_mem minLen mask 0 y row hrow s ?_, hprops⟩
  rwa [Nat.zero_add]

/-- Witness for C1: a length-1 trailing white run is emitted even though
`minSpanLen = 5` far exceeds it. -/
theorem C1_terminal_flush_witness :
    ∃ s ∈ generateSortSpans [[RGBABlack, RGBAWhite]] 5,
      s.color = RGBAWhite ∧ s.row = 0 ∧ s.idx + s.len = 2 ∧
      s.len = trailingWhite [RGBABlack, RGBAWhite] ∧ 1 ≤ s.len :=
  C1_terminal_flush [[RGBABlack, RGBAWhite]] 5 0 [RGBABlack, RGBAWhite]
    rfl (by decide) (by decide)

/-! ## C7: span well-formedness and disjointness -/

/-- The inner scan of an exhausted line emits nothing. -/
theorem scanRowAux_nil (y : Nat) (minLen : ℤ) (x : Nat) (keep : Bool) (span : Span) :
    scanRowAux y minLen [] x keep span = [] := rfl

/-- Membership in a conditional singleton pins the element and the
condition. -/
theorem mem_if_singleton {α : Type} {s a : α} {b : Bool}
    (h : s ∈ (if b = true then [a] else [])) : s = a ∧ b = true := by
  cases b <;> simp_all

/-- A conditional singleton is vacuously pairwise-ordered. -/
theorem pairwise_if_singleton {α : Type} {R : α → α → Prop} {a : α} {b : Bool} :
    List.Pairwise R (if b = true then [a] else []) := by
  cases b <;> simp

/-- Loop invariant of the inner scan: with the current run covering
`[span.idx, x)`, every emitted span starts at or after `span.idx`, ends
by the end of the line, sits on row `y`, and the emitted spans appear
in order of strictly disjoint column intervals. -/
theorem scanRowAux_bounds (y : Nat) (minLen : ℤ) :
    ∀ (l : List RGBA) (x : Nat) (keep : Bool) (span : Span),
      span.idx + span.len = x → span.row = y →
      (∀ s ∈ scanRowAux y minLen l x keep span,
          span.idx ≤ s.idx ∧ s.idx + s.len ≤ x + l.length ∧ s.row = y)
      ∧ List.Pairwise (fun s t => s.idx + s.len ≤ t.idx)
          (scanRowAux y minLen l x keep span) := by
  intro l
  induction l with
  | nil =>
      intro x keep span hidx hrow
      exact ⟨fun s hs => by simp [scanRowAux_nil] at hs, by simp [scanRowAux_nil]⟩
  | cons c rest ih =>
      intro x keep span hidx hrow
      by_cases hc : c = span.color
      · obtain ⟨ihA, ihB⟩ := ih (x + 1) keep ⟨span.color, span.row, span.idx, span.len + 1⟩
          (by simp; omega) hrow
        have hres : scanRowAux y minLen (c :: rest) x keep span
            = (if (rest.isEmpty && keep) = true
                then [⟨span.color, span.row, span.idx, span.len + 1⟩] else [])
              ++ scanRowAux y minLen rest (x + 1) keep
                  ⟨span.color, span.row, span.idx, span.len + 1⟩ := by
          simp [scanRowAux, if_pos hc]
        rw [hres]
        constructor
        · intro s hs
          rcases List.mem_append.1 hs with hE | hR
          · obtain ⟨hsa, _⟩ := mem_if_singleton hE
            subst hsa
            exact ⟨le_refl _, by simp; omega, hrow⟩
          · obtain ⟨h1, h2, h3⟩ := ihA s hR
            exact ⟨h1, by simp at h2 ⊢; omega, h3⟩
        · rw [List.pairwise_append]
          refine ⟨pairwise_if_singleton, ihB, ?_⟩
          intro a ha b hb
          obtain ⟨hsa, hcond⟩ := mem_if_singleton ha
          have hrest : rest = [] := by
            rw [Bool.and_eq_true] at hcond
            exact List.isEmpty_iff.1 hcond.1
          subst hrest
          simp [scanRowAux_nil] at hb
      · obtain ⟨ihA, ihB⟩ := ih (x + 1) (!keep) ⟨c, y, x, 1⟩ (by simp) rfl
        have hres : scanRowAux y minLen (c :: rest) x keep span
            = (if (keep && decide (minLen ≤ (span.len : ℤ))) = true then [span] else [])
              ++ ((if (rest.isEmpty && !keep) = true then [⟨c, y, x, 1⟩] else [])
              ++ scanRowAux y minLen rest (x + 1) (!keep) ⟨c, y, x, 1⟩) := by
          simp [scanRowAux, if_neg hc]
        rw [hres]
        constructor
        · intro s hs
          rcases List.mem_append.1 hs with hE1 | hs2
          · obtain ⟨hsa, _⟩ := mem_if_singleton hE1
            subst hsa
            exact ⟨le_refl _, by simp; omega, hrow⟩
          · rcases List.mem_append.1 hs2 with hE2 | hR
            · obtain ⟨hsa, _⟩ := mem_if_singleton hE2
              subst hsa
              refine ⟨?_, ?_, rfl⟩
              · show span.idx ≤ x
                omega
              · show x + 1 ≤ x + (c :: rest).length
                rw [List.length_cons]
                omega
            · obtain ⟨h1, h2, h3⟩ := ihA s hR
              have h1x : x ≤ s.idx := h1
              have h2x : s.idx + s.len ≤ (x + 1) + rest.length := h2
              refine ⟨by omega, ?_, h3⟩
              rw [List.length_cons]
              omega
        · rw [List.pairwise_append]
          refine ⟨pairwise_if_singleton, ?_, ?_⟩
          · rw [List.pairwise_append]
            refine ⟨pairwise_if_singleton, ihB, ?_⟩
            intro a ha b hb
            obtain ⟨hsa, hcond⟩ := mem_if_singleton ha
            have hrest : rest = [] := by
              rw [Bool.and_eq_true] at hcond
              exact List.isEmpty_iff.1 hcond.1
            subst hrest
            simp [scanRowAux_nil] at hb
          · intro a ha b hb
            obtain ⟨hsa, _⟩ := mem_if_singleton ha
            subst hsa
            rcases List.mem_append.1 hb with hE2 | hR
            · obtain ⟨hsb, _⟩ := mem_if_singleton hE2
              subst hsb
              show a.idx + a.len ≤ x
              omega
            · obtain ⟨h1, _, _⟩ := ihA b hR
              have h1x : x ≤ b.idx := h1
              omega

/-- Every span of one scanned row fits in the row and the row's spans
are mutually disjoint, in scan order. -/
theorem generateSortSpansRow_bounds (row : List RGBA) (y : Nat) (minLen : ℤ) :
    (∀ s ∈ generateSortSpansRow row y minLen,
        s.idx + s.len ≤ row.length ∧ s.row = y)
    ∧ List.Pairwise (fun s t => s.idx + s.len ≤ t.idx)
        (generateSortSpansRow row y minLen) := by
  cases row with
  | nil => exact ⟨fun s hs => by simp [generateSortSpansRow] at hs, by simp [generateSortSpansRow]⟩
  | cons c rest =>
      obtain ⟨hA, hB⟩ := scanRowAux_bounds y minLen (c :: rest) 0 (decide (c = RGBAWhite))
        ⟨c, y, 0, 0⟩ rfl rfl
      exact ⟨fun s hs => ⟨by simpa using (hA s hs).2.1, (hA s hs).2.2⟩, hB⟩

/-- Spans of the remaining rows sit on rows at or below `y0`, fit in
their row, and are pairwise disjoint: row scans are disjoint between
rows, and disjoint in columns within a row. -/
theorem generateSortSpansAux_props (minLen : ℤ) :
    ∀ (g : Grid) (y0 : Nat),
      (∀ s ∈ generateSortSpansAux minLen g y0,
          y0 ≤ s.row ∧ ∃ row, g[s.row - y0]? = some row ∧ s.idx + s.len ≤ row.length)
      ∧ List.Pairwise spanDisjoint (generateSortSpansAux minLen g y0) := by
  intro g
  induction g with
  | nil =>
      intro y0
      exact ⟨fun s hs => by simp [generateSortSpansAux] at hs,
        by simp [generateSortSpansAux]⟩
  | cons r0 rest ih =>
      intro y0
      obtain ⟨rowA, rowB⟩ := generateSortSpansRow_bounds r0 y0 minLen
      obtain ⟨ihA, ihB⟩ := ih (y0 + 1)
      simp only [generateSortSpansAux]
      constructor
      · intro s hs
        rcases List.mem_append.1 hs with h0 | hr
        · obtain ⟨hbound, hrow⟩ := rowA s h0
          refine ⟨by omega, r0, ?_, hbound⟩
          rw [hrow]
          simp
        · obtain ⟨hy, row, hget, hbound⟩ := ihA s hr
          refine ⟨by omega, row, ?_, hbound⟩
          have harith : s.row - y0 = (s.row - (y0 + 1)) + 1 := by omega
          rw [harith, List.getElem?_cons_succ]
          exact hget
      · rw [List.pairwise_append]
        refine ⟨rowB.imp ?_, ihB, ?_⟩
        · intro s t h
          exact Or.inr (Or.inl h)
        · intro s hsmem t htmem
          have hsrow : s.row = y0 := (rowA s hsmem).2
          have htrow : y0 + 1 ≤ t.row := (ihA t htmem).1
          exact Or.inl (by omega)

/-- Claim C7: every Span emitted by the detector has nonnegative start
offset, fits inside its single scan line (`idx + len ≤ line length`),
and any two emitted Spans cover disjoint pixel positions. -/
theorem C7_span_invariants (mask : Grid) (minLen : ℤ) :
    (∀ s ∈ generateSortSpans mask minLen,
        0 ≤ s.idx ∧ ∃ row, mask[s.row]? = some row ∧ s.idx + s.len ≤ row.length)
    ∧ List.Pairwise spanDisjoint (generateSortSpans mask minLen) := by
  obtain ⟨hA, hB⟩ := generateSortSpansAux_props minLen mask 0
  refine ⟨fun s hs => ?_, hB⟩
  obtain ⟨_, row, hget, hbound⟩ := hA s hs
  exact ⟨Nat.zero_le _, row, by simpa using hget, hbound⟩

/-- Witness for C7 at a concrete mask, for the span [0,1) of row 0. -/
theorem C7_span_invariants_witness :
    (0 ≤ (⟨RGBAWhite, 0, 0, 1⟩ : Span).idx
      ∧ ∃ row, [[RGBAWhite, RGBABlack, RGBAWhite]][(⟨RGBAWhite, 0, 0, 1⟩ : Span).row]? = some row
          ∧ (⟨RGBAWhite, 0, 0, 1⟩ : Span).idx + (⟨RGBAWhite, 0, 0, 1⟩ : Span).len ≤ row.length)
    ∧ List.Pairwise spanDisjoint (generateSortSpans [[RGBAWhite, RGBABlack, RGBAWhite]] 1) :=
  ⟨(C7_span_invariants [[RGBAWhite, RGBABlack, RGBAWhite]] 1).1
      ⟨RGBAWhite, 0, 0, 1⟩ (by decide),
    (C7_span_invariants [[RGBAWhite, RGBABlack, RGBAWhite]] 1).2⟩

/-! ## C4: the luminance mask against the spec formula -/

/-- Evaluation rule for `fl64`: if `x` lies in the binade `[2^e, 2^(e+1))`
and its scaled significand is within 1/2 of the integer `m`, then `x`
rounds to `m·2^(e-52)`. -/
theorem fl64_eq (x v : ℝ) (e m : ℤ) (hx : 0 < x)
    (h1 : (2:ℝ) ^ e ≤ x) (h2 : x < (2:ℝ) ^ (e + 1))
    (h3 : (m : ℝ) - 1/2 < x * (2:ℝ) ^ ((52:ℤ) - e))
    (h4 : x * (2:ℝ) ^ ((52:ℤ) - e) < (m : ℝ) + 1/2)
    (hv : (m : ℝ) * (2:ℝ) ^ (e - 52) = v) :
    fl64 x = v := by
  have hlog : Int.log 2 x = e := by
    have ha : e ≤ Int.log 2 x :=
      (Int.zpow_le_iff_le_log (by norm_num) hx).1 (by exact_mod_cast h1)
    have hb : Int.log 2 x < e + 1 :=
      (Int.lt_zpow_iff_log_lt (by norm_num) hx).1 (by exact_mod_cast h2)
    omega
  have hre : roundEvenR (x * (2:ℝ) ^ ((52:ℤ) - e)) = m := by
    set y := x * (2:ℝ) ^ ((52:ℤ) - e) with hy
    unfold roundEvenR
    by_cases hym : (m : ℝ) ≤ y
    · have hfl : ⌊y⌋ = m := Int.floor_eq_iff.2 ⟨hym, by linarith⟩
      rw [hfl, if_pos (by linarith)]
    · push_neg at hym
      have hfl : ⌊y⌋ = m - 1 :=
        Int.floor_eq_iff.2 ⟨by push_cast; linarith, by push_cast; linarith⟩
      rw [hfl, if_neg (by push_cast; linarith), if_pos (by push_cast; linarith)]
      omega
  unfold fl64
  rw [if_neg hx.ne', abs_of_pos hx, hlog, hre, hv]

/-- `0.299 · 3855²` in float64. -/
theorem flum_red_15 :
    fl64 (perceivedR64 * (3855:ℝ) ^ 2) = 2385557161456435 / 536870912 := by
  apply fl64_eq _ _ 22 4771114322912870
  · norm_num [perceivedR64]
  · norm_num [perceivedR64]
  · norm_num [perceivedR64]
  · norm_num [perceivedR64]
  · norm_num [perceivedR64]
  · norm_num

/-- `0.587 · 3855²` in float64. -/
theorem flum_green_15 :
    fl64 (perceivedG64 * (3855:ℝ) ^ 2) = 4683351350417817 / 536870912 := by
  apply fl64_eq _ _ 23 4683351350417817
  · norm_num [perceivedG64]
  · norm_num [perceivedG64]
  · norm_num [perceivedG64]
  · norm_num [perceivedG64]
  · norm_num [perceivedG64]
  · norm_num

/-- `0.114 · 3855²` in float64. -/
theorem flum_blue_15 :
    fl64 (perceivedB64 * (3855:ℝ) ^ 2) = 3638174132522189 / 2147483648 := by
  apply fl64_eq _ _ 20 7276348265044378
  · norm_num [perceivedB64]
  · norm_num [perceivedB64]
  · norm_num [perceivedB64]
  · norm_num [perceivedB64]
  · norm_num [perceivedB64]
  · norm_num

/-- The first addition is exactly representable, so rounding is the
identity on it. -/
theorem flum_sum1_15 :
    fl64 (1767227127968563 / 134217728 : ℝ) = 1767227127968563 / 134217728 := by
  apply fl64_eq _ _ 23 7068908511874252
  · norm_num
  · norm_num
  · norm_num
  · norm_num
  · norm_num
  · norm_num

/-- The second addition rounds down by a quarter unit in the last
place: the float64 sum is 14861024.999999998, strictly below the exact
value 14861025. -/
theorem flum_sum2_15 :
    fl64 (31913808180019197 / 2147483648 : ℝ) = 7978452045004799 / 536870912 := by
  apply fl64_eq _ _ 23 7978452045004799
  · norm_num
  · norm_num
  · norm_num
  · norm_num
  · norm_num
  · norm_num

/-- The correctly rounded square root of the float64 sum:
3854.9999999999995, one unit in the last place below 3855. -/
theorem flum_sqrt_15 :
    fl64 (Real.sqrt (7978452045004799 / 536870912 : ℝ))
      = 8477234650152959 / 2199023255552 := by
  have hs : (0:ℝ) < 7978452045004799 / 536870912 := by norm_num
  have hsq : Real.sqrt (7978452045004799 / 536870912) * (2:ℝ) ^ ((52:ℤ) - 11)
      = Real.sqrt (7978452045004799 / 536870912 * ((2:ℝ) ^ (41:ℕ)) ^ 2) := by
    rw [Real.sqrt_mul (le_of_lt hs), Real.sqrt_sq (by positivity)]
    norm_num
  apply fl64_eq _ _ 11 8477234650152959 (Real.sqrt_pos.2 hs)
  · rw [show ((2:ℝ) ^ (11:ℤ)) = 2048 by norm_num]
    rw [Real.le_sqrt (by norm_num) (le_of_lt hs)]
    norm_num
  · rw [show ((2:ℝ) ^ ((11:ℤ) + 1)) = 4096 by norm_num]
    rw [Real.sqrt_lt' (by norm_num)]
    norm_num
  · rw [hsq]
    rw [Real.lt_sqrt (by norm_num)]
    norm_num
  · rw [hsq]
    rw [Real.sqrt_lt' (by norm_num)]
    norm_num
  · norm_num

/-- The program's luminance at the gray pixel (15,15,15): exactly one
ulp below the exact value 3855. -/
theorem goFloatLuminance_15 :
    goFloatLuminance ⟨15, 15, 15, 255⟩ = 8477234650152959 / 2199023255552 := by
  have hch : (chan16 15 : ℝ) = 3855 := by norm_num [chan16]
  show fl64 (Real.sqrt (fl64
      (fl64 (fl64 (perceivedR64 * (chan16 15 : ℝ) ^ 2)
           + fl64 (perceivedG64 * (chan16 15 : ℝ) ^ 2))
       + fl64 (perceivedB64 * (chan16 15 : ℝ) ^ 2)))) = _
  rw [hch, flum_red_15, flum_green_15, flum_blue_15]
  rw [show (2385557161456435 / 536870912 : ℝ) + 4683351350417817 / 536870912
      = 1767227127968563 / 134217728 by norm_num]
  rw [flum_sum1_15]
  rw [show (1767227127968563 / 134217728 : ℝ) + 3638174132522189 / 2147483648
      = 31913808180019197 / 2147483648 by norm_num]
  rw [flum_sum2_15, flum_sqrt_15]

/-- The exact spec luminance of the gray pixel (15,15,15) is exactly
3855, since the BT.601 weights sum to 1. -/
theorem specLuminance_15 : specLuminance ⟨15, 15, 15, 255⟩ = 3855 := by
  unfold specLuminance
  rw [show (299 * (chan16 (⟨15, 15, 15, 255⟩ : RGBA).r : ℝ) ^ 2
      + 587 * (chan16 (⟨15, 15, 15, 255⟩ : RGBA).g : ℝ) ^ 2
      + 114 * (chan16 (⟨15, 15, 15, 255⟩ : RGBA).b : ℝ) ^ 2) / 1000
      = (3855:ℝ) ^ 2 by norm_num [chan16]]
  exact Real.sqrt_sq (by norm_num)

/-- Each mask pixel is exactly white or black, and is white iff the
program's float64 luminance lies in `[lo, hi]` — flipped when `invert`
is set. -/
theorem maskPixel_spec (p : RGBA) (lo hi : ℤ) (invert : Bool) :
    (maskPixel p lo hi invert = RGBAWhite ∨ maskPixel p lo hi invert = RGBABlack)
    ∧ (maskPixel p lo hi invert = RGBAWhite
        ↔ (((lo : ℝ) ≤ goFloatLuminance p ∧ goFloatLuminance p ≤ (hi : ℝ))
            ↔ invert = false)) := by
  unfold maskPixel
  split_ifs with hc hi1 hi2
  · -- out of range, not inverted: Black
    have hnab : ¬ ((lo : ℝ) ≤ goFloatLuminance p ∧ goFloatLuminance p ≤ (hi : ℝ)) := by
      rcases hc with h | h
      · intro hab; linarith [hab.1]
      · intro hab; linarith [hab.2]
    have hinv : invert = false := by simpa using hi1
    subst hinv
    refine ⟨Or.inr rfl, ?_⟩
    constructor
    · intro hbw
      exact absurd hbw (by decide)
    · intro hiff
      exact absurd (hiff.2 rfl) hnab
  · -- out of range, inverted: White
    have hnab : ¬ ((lo : ℝ) ≤ goFloatLuminance p ∧ goFloatLuminance p ≤ (hi : ℝ)) := by
      rcases hc with h | h
      · intro hab; linarith [hab.1]
      · intro hab; linarith [hab.2]
    have hinv : invert = true := by simpa using hi1
    subst hinv
    refine ⟨Or.inl rfl, ?_⟩
    constructor
    · intro _
      constructor
      · intro hab
        exact absurd hab hnab
      · intro hft
        cases hft
    · intro _
      rfl
  · -- in range, not inverted: White
    have hab : (lo : ℝ) ≤ goFloatLuminance p ∧ goFloatLuminance p ≤ (hi : ℝ) := by
      push_neg at hc
      exact hc
    have hinv : invert = false := by simpa using hi2
    subst hinv
    exact ⟨Or.inl rfl, by simp [hab]⟩
  · -- in range, inverted: Black
    have hab : (lo : ℝ) ≤ goFloatLuminance p ∧ goFloatLuminance p ≤ (hi : ℝ) := by
      push_neg at hc
      exact hc
    have hinv : invert = true := by simpa using hi2
    subst hinv
    refine ⟨Or.inr rfl, ?_⟩
    constructor
    · intro h
      exact absurd h (by decide)
    · intro hiff
      exact absurd (hiff.1 hab) (by decide)

/-- Claim C4 counterexample: at the gray pixel (15,15,15) with valid
thresholds `lo = 3855 ≤ hi = 65535` and `invert` unset, the exact
luminance `L = sqrt(0.299R²+0.587G²+0.114B²)` is exactly 3855, inside
`[lo, hi]`, so the claim demands a white pixel — but the program's
float64 luminance is 3854.9999999999995 < lo and it paints the pixel
black. -/
theorem C4_counterexample :
    (0 : ℤ) ≤ 3855 ∧ (3855 : ℤ) ≤ 65535
    ∧ generateLuminanceMask [[⟨15, 15, 15, 255⟩]] 3855 65535 false
        = some [[RGBABlack]]
    ∧ ((3855 : ℤ) : ℝ) ≤ specLuminance ⟨15, 15, 15, 255⟩
    ∧ specLuminance ⟨15, 15, 15, 255⟩ ≤ ((65535 : ℤ) : ℝ)
    ∧ RGBABlack ≠ RGBAWhite := by
  have hL : goFloatLuminance ⟨15, 15, 15, 255⟩ < ((3855 : ℤ) : ℝ) := by
    rw [goFloatLuminance_15]
    norm_num
  have hmp : maskPixel ⟨15, 15, 15, 255⟩ 3855 65535 false = RGBABlack := by
    unfold maskPixel
    rw [if_pos (Or.inl hL)]
    rfl
  refine ⟨by norm_num, by norm_num, ?_, ?_, ?_, by decide⟩
  · unfold generateLuminanceMask
    rw [if_neg (by omega), if_neg (by omega)]
    simp [hmp]
  · rw [specLuminance_15]
    norm_num
  · rw [specLuminance_15]
    norm_num

/-- Claim C4 (amended): for valid thresholds (`0 ≤ low ≤ high`),
`generateLuminanceMask` returns a mask with the source's bounds in
which every pixel is exactly one of white or black, and a pixel is
white iff the luminance the program computes — the float64 evaluation
of `sqrt(0.299R² + 0.587G² + 0.114B²)` over the 16-bit-expanded
channels — satisfies `low ≤ L ≤ high`, flipped when `invert` is set.
The float64 value can land one ulp below the exact real `L` at
threshold boundaries (see `C4_counterexample`), so the iff holds for
the computed luminance, not the exact formula. -/
theorem C4_luminance_mask (src : Grid) (lo hi : ℤ) (invert : Bool)
    (hlo : 0 ≤ lo) (hlohi : lo ≤ hi) :
    ∃ m : Grid, generateLuminanceMask src lo hi invert = some m
      ∧ m.length = src.length
      ∧ ∀ (y : Nat) (row : List RGBA), src[y]? = some row →
          ∃ mrow : List RGBA, m[y]? = some mrow ∧ mrow.length = row.length
            ∧ ∀ (x : Nat) (p : RGBA), row[x]? = some p →
                ∃ q : RGBA, mrow[x]? = some q
                  ∧ (q = RGBAWhite ∨ q = RGBABlack)
                  ∧ (q = RGBAWhite
                      ↔ (((lo : ℝ) ≤ goFloatLuminance p ∧ goFloatLuminance p ≤ (hi : ℝ))
                          ↔ invert = false)) := by
  refine ⟨src.map (fun row => row.map (fun p => maskPixel p lo hi invert)), ?_, by simp, ?_⟩
  · unfold generateLuminanceMask
    rw [if_neg (by omega), if_neg (by omega)]
  · intro y row hy
    refine ⟨row.map (fun p => maskPixel p lo hi invert), ?_, by simp, ?_⟩
    · rw [List.getElem?_map, hy]
      rfl
    · intro x p hx
      refine ⟨maskPixel p lo hi invert, ?_, ?_, ?_⟩
      · rw [List.getElem?_map, hx]
        rfl
      · exact (maskPixel_spec p lo hi invert).1
      · exact (maskPixel_spec p lo hi invert).2

/-- Witness for C4 on a one-pixel image with thresholds 0 and 10. -/
theorem C4_luminance_mask_witness :
    ∃ m : Grid, generateLuminanceMask [[(⟨0, 0, 0, 0⟩ : RGBA)]] 0 10 false = some m
      ∧ m.length = ([[(⟨0, 0, 0, 0⟩ : RGBA)]] : Grid).length
      ∧ ∀ (y : Nat) (row : List RGBA), ([[(⟨0, 0, 0, 0⟩ : RGBA)]] : Grid)[y]? = some row →
          ∃ mrow : List RGBA, m[y]? = some mrow ∧ mrow.length = row.length
            ∧ ∀ (x : Nat) (p : RGBA), row[x]? = some p →
                ∃ q : RGBA, mrow[x]? = some q
                  ∧ (q = RGBAWhite ∨ q = RGBABlack)
                  ∧ (q = RGBAWhite
                      ↔ ((((0 : ℤ) : ℝ) ≤ goFloatLuminance p
                            ∧ goFloatLuminance p ≤ ((10 : ℤ) : ℝ))
                          ↔ false = false)) :=
  C4_luminance_mask [[⟨0, 0, 0, 0⟩]] 0 10 false (by decide) (by decide)

/-! ## C5, C6, C8: sortSpans write-back, compositing, magenta sentinel -/

/-- Equal row shapes give equal defaulted row lengths. -/
theorem len_getD_eq {o1 o2 : Option (List RGBA)}
    (h : o1.map List.length = o2.map List.length) :
    (o1.getD []).length = (o2.getD []).length := by
  cases o1 <;> cases o2 <;> simp_all

/-- `Set` preserves the number of rows. -/
theorem setPix_length (g : Grid) (x y : Nat) (c : RGBA) :
    (setPix g x y c).length = g.length := by
  simp [setPix]

/-- `Set` preserves every row's length. -/
theorem setPix_rowShape (g : Grid) (x y : Nat) (c : RGBA) (y2 : Nat) :
    ((setPix g x y c)[y2]?).map List.length = (g[y2]?).map List.length := by
  unfold setPix
  rw [List.getElem?_set]
  split_ifs with h1 h2
  · subst h1
    rw [List.getElem?_eq_getElem h2]
    simp
  · subst h1
    rw [List.getElem?_eq_none (show g.length ≤ y by omega)]
  · rfl

/-- Reading back an in-bounds write returns the written pixel. -/
theorem pixAt_setPix_same (g : Grid) (x y : Nat) (c : RGBA)
    (hy : y < g.length) (hx : x < (g[y]?.getD []).length) :
    pixAt (setPix g x y c) x y = c := by
  unfold pixAt setPix
  rw [List.getElem?_set_self (by omega)]
  simp only [Option.getD_some]
  rw [List.getElem?_set_self hx]
  rfl

/-- A write leaves every other position unchanged. -/
theorem pixAt_setPix_other (g : Grid) (x y : Nat) (c : RGBA) (x2 y2 : Nat)
    (h : x2 ≠ x ∨ y2 ≠ y) :
    pixAt (setPix g x y c) x2 y2 = pixAt g x2 y2 := by
  unfold pixAt setPix
  rcases h with hx | hy
  · by_cases hy2 : y2 = y
    · subst hy2
      rw [List.getElem?_set]
      split_ifs with h1 h2
      · simp only [Option.getD_some]
        rw [List.getElem?_set_ne (fun he => hx he.symm)]
      · rw [List.getElem?_eq_none (show g.length ≤ y2 by omega)]
      · exact absurd rfl h1
    · rw [List.getElem?_set_ne (fun he => hy2 he.symm)]
  · rw [List.getElem?_set_ne (fun he => hy he.symm)]

/-- The write-back loop preserves the number of rows. -/
theorem writeSpanAux_length :
    ∀ (cs : List RGBA) (row idx : Nat) (g : Grid),
      (writeSpanAux row idx cs g).length = g.length := by
  intro cs
  induction cs with
  | nil => intro row idx g; rfl
  | cons c rest ih =>
      intro row idx g
      show (writeSpanAux row (idx + 1) rest (setPix g idx row (substPix c))).length = g.length
      rw [ih, setPix_length]

/-- The write-back loop preserves every row's length. -/
theorem writeSpanAux_rowShape :
    ∀ (cs : List RGBA) (row idx : Nat) (g : Grid) (y2 : Nat),
      ((writeSpanAux row idx cs g)[y2]?).map List.length = (g[y2]?).map List.length := by
  intro cs
  induction cs with
  | nil => intro row idx g y2; rfl
  | cons c rest ih =>
      intro row idx g y2
      show ((writeSpanAux row (idx + 1) rest (setPix g idx row (substPix c)))[y2]?).map
          List.length = (g[y2]?).map List.length
      rw [ih, setPix_rowShape]

/-- The write-back loop only writes the columns `[idx, idx + |cs|)` of
its row. -/
theorem writeSpanAux_untouched :
    ∀ (cs : List RGBA) (row idx : Nat) (g : Grid) (x2 y2 : Nat),
      (y2 ≠ row ∨ x2 < idx ∨ idx + cs.length ≤ x2) →
      pixAt (writeSpanAux row idx cs g) x2 y2 = pixAt g x2 y2 := by
  intro cs
  induction cs with
  | nil => intro row idx g x2 y2 _; rfl
  | cons c rest ih =>
      intro row idx g x2 y2 hcond
      show pixAt (writeSpanAux row (idx + 1) rest (setPix g idx row (substPix c))) x2 y2
          = pixAt g x2 y2
      rw [ih row (idx + 1) (setPix g idx row (substPix c)) x2 y2
        (by rcases hcond with h | h | h
            · exact Or.inl h
            · exact Or.inr (Or.inl (by omega))
            · refine Or.inr (Or.inr ?_)
              simp only [List.length_cons] at h
              omega)]
      exact pixAt_setPix_other g idx row (substPix c) x2 y2
        (by rcases hcond with h | h | h
            · exact Or.inr h
            · exact Or.inl (by omega)
            · refine Or.inl ?_
              simp only [List.length_cons] at h
              omega)

/-- Reading back position `idx + j` after the write-back loop returns
the `j`-th written pixel (transparent pixels as magenta). -/
theorem writeSpanAux_read :
    ∀ (cs : List RGBA) (row idx : Nat) (g : Grid) (j : Nat) (c : RGBA),
      cs[j]? = some c →
      row < g.length →
      idx + cs.length ≤ (g[row]?.getD []).length →
      pixAt (writeSpanAux row idx cs g) (idx + j) row = substPix c := by
  intro cs
  induction cs with
  | nil => intro row idx g j c hj; simp at hj
  | cons c0 rest ih =>
      intro row idx g j c hj hrow hbound
      show pixAt (writeSpanAux row (idx + 1) rest (setPix g idx row (substPix c0)))
          (idx + j) row = substPix c
      cases j with
      | zero =>
          rw [List.getElem?_cons_zero] at hj
          injection hj with hj
          subst hj
          rw [writeSpanAux_untouched rest row (idx + 1) _ (idx + 0) row
            (Or.inr (Or.inl (by omega)))]
          exact pixAt_setPix_same g idx row (substPix c0) hrow
            (by simp only [List.length_cons] at hbound; omega)
      | succ j0 =>
          rw [List.getElem?_cons_succ] at hj
          have harith : idx + (j0 + 1) = (idx + 1) + j0 := by omega
          rw [harith]
          refine ih row (idx + 1) (setPix g idx row (substPix c0)) j0 c hj ?_ ?_
          · rw [setPix_length]
            exact hrow
          · have hsh : (((setPix g idx row (substPix c0))[row]?).getD []).length
                = ((g[row]?).getD []).length :=
              len_getD_eq (setPix_rowShape g idx row (substPix c0) row)
            rw [hsh]
            simp only [List.length_cons] at hbound
            omega

/-- Sorting preserves the number of pixels. -/
theorem sortPixels_length (rev : Bool) (cs : List RGBA) :
    (sortPixels rev cs).length = cs.length := by
  simp [sortPixels, List.length_mergeSort]

/-- A span gathers exactly `len` pixels. -/
theorem spanPixels_length (src : Grid) (s : Span) :
    (spanPixels src s).length = s.len := by
  simp [spanPixels]

/-- The span-sorting fold leaves every position not covered by any span
unchanged. -/
theorem sortSpans_untouched_aux (src : Grid) (rev : Bool) :
    ∀ (spans : List Span) (out : Grid) (x y : Nat),
      (∀ s ∈ spans, ¬ spanCovers s x y) →
      pixAt (List.foldl
        (fun out s =>
          if 1 < s.len then
            writeSpanAux s.row s.idx (sortPixels rev (spanPixels src s)) out
          else out) out spans) x y = pixAt out x y := by
  intro spans
  induction spans with
  | nil => intro out x y _; rfl
  | cons s rest ih =>
      intro out x y hnc
      rw [List.foldl_cons]
      rw [ih _ x y (fun t ht => hnc t (List.mem_cons_of_mem s ht))]
      by_cases hlen : 1 < s.len
      · rw [if_pos hlen]
        have hns := hnc s (List.mem_cons_self s rest)
        rw [writeSpanAux_untouched]
        rw [sortPixels_length, spanPixels_length]
        simp only [spanCovers, not_and, not_lt] at hns
        by_cases hy : y = s.row
        · subst hy
          by_cases hx : s.idx ≤ x
          · exact Or.inr (Or.inr (hns rfl hx))
          · exact Or.inr (Or.inl (by omega))
        · exact Or.inl hy
      · rw [if_neg hlen]

/-- The span-sorting fold preserves the grid's shape. -/
theorem sortSpans_shape_aux (src : Grid) (rev : Bool) :
    ∀ (spans : List Span) (out : Grid),
      (List.foldl
        (fun out s =>
          if 1 < s.len then
            writeSpanAux s.row s.idx (sortPixels rev (spanPixels src s)) out
          else out) out spans).length = out.length
      ∧ ∀ y : Nat, ((List.foldl
        (fun out s =>
          if 1 < s.len then
            writeSpanAux s.row s.idx (sortPixels rev (spanPixels src s)) out
          else out) out spans)[y]?).map List.length = (out[y]?).map List.length := by
  intro spans
  induction spans with
  | nil => intro out; exact ⟨rfl, fun y => rfl⟩
  | cons s rest ih =>
      intro out
      rw [List.foldl_cons]
      constructor
      · rw [(ih _).1]
        by_cases hlen : 1 < s.len
        · rw [if_pos hlen, writeSpanAux_length]
        · rw [if_neg hlen]
      · intro y
        rw [(ih _).2 y]
        by_cases hlen : 1 < s.len
        · rw [if_pos hlen, writeSpanAux_rowShape]
        · rw [if_neg hlen]

/-- Reading a span position after the whole pipeline: for a span of the
detector's disjoint span list, position `idx + j` of its row holds the
`j`-th hue-sorted pixel, transparent pixels substituted by magenta. -/
theorem sortSpans_writes (src : Grid) (rev : Bool) (spans : List Span) (s : Span)
    (hmem : s ∈ spans) (hdisj : List.Pairwise spanDisjoint spans)
    (hlen : 1 < s.len) (hrow : s.row < src.length)
    (hbound : s.idx + s.len ≤ (src[s.row]?.getD []).length) :
    ∀ (j : Nat) (c : RGBA),
      (sortPixels rev (spanPixels src s))[j]? = some c →
      pixAt (sortSpans src spans rev) (s.idx + j) s.row = substPix c := by
  intro j c hc
  have hj : j < s.len := by
    have := List.getElem?_eq_some_iff.1 hc
    obtain ⟨hlt, _⟩ := this
    rwa [sortPixels_length, spanPixels_length] at hlt
  obtain ⟨b, a, rfl⟩ := List.append_of_mem hmem
  have hdis_a : ∀ t ∈ a, spanDisjoint s t := by
    have h2 := (List.pairwise_append.1 hdisj).2.1
    exact (List.pairwise_cons.1 h2).1
  simp only [sortSpans, List.foldl_append, List.foldl_cons]
  rw [if_pos hlen]
  set out_b := List.foldl
    (fun out t =>
      if 1 < t.len then
        writeSpanAux t.row t.idx (sortPixels rev (spanPixels src t)) out
      else out) src b with hout_b
  rw [sortSpans_untouched_aux src rev a _ (s.idx + j) s.row ?hnc]
  case hnc =>
    intro t ht hcov
    obtain ⟨hy, h1, h2⟩ := hcov
    rcases hdis_a t ht with hne | hij | hij
    · exact hne hy
    · omega
    · omega
  refine writeSpanAux_read _ s.row s.idx out_b j c hc ?_ ?_
  · rw [(sortSpans_shape_aux src rev b src).1]
    exact hrow
  · have hsh : ((out_b[s.row]?).getD []).length = ((src[s.row]?).getD []).length :=
      len_getD_eq ((sortSpans_shape_aux src rev b src).2 s.row)
    rw [hsh, sortPixels_length, spanPixels_length]
    exact hbound

/-- Reading the span's positions out of `sortSpans` returns the sorted
pixel sequence with the magenta substitution applied. -/
theorem spanPixels_sortSpans (src : Grid) (rev : Bool) (spans : List Span) (s : Span)
    (hmem : s ∈ spans) (hdisj : List.Pairwise spanDisjoint spans)
    (hlen : 1 < s.len) (hrow : s.row < src.length)
    (hbound : s.idx + s.len ≤ (src[s.row]?.getD []).length) :
    spanPixels (sortSpans src spans rev) s
      = (sortPixels rev (spanPixels src s)).map substPix := by
  apply List.ext_getElem?
  intro n
  by_cases hn : n < s.len
  · have hn2 : n < (sortPixels rev (spanPixels src s)).length := by
      rw [sortPixels_length, spanPixels_length]
      exact hn
    have hc : (sortPixels rev (spanPixels src s))[n]?
        = some ((sortPixels rev (spanPixels src s))[n]) :=
      List.getElem?_eq_getElem hn2
    have hw := sortSpans_writes src rev spans s hmem hdisj hlen hrow hbound n _ hc
    show (spanPixels (sortSpans src spans rev) s)[n]?
        = ((sortPixels rev (spanPixels src s)).map substPix)[n]?
    rw [spanPixels, List.getElem?_map, List.getElem?_range hn, List.getElem?_map, hc]
    simp only [Option.map_some']
    rw [hw]
  · have h1 : (spanPixels (sortSpans src spans rev) s).length ≤ n := by
      rw [spanPixels_length]
      omega
    have h2 : ((sortPixels rev (spanPixels src s)).map substPix).length ≤ n := by
      rw [List.length_map, sortPixels_length, spanPixels_length]
      omega
    rw [List.getElem?_eq_none h1, List.getElem?_eq_none h2]

/-- The hue comparison is transitive. -/
theorem hueLe_trans (rev : Bool) (a b c : RGBA)
    (h1 : hueLe rev a b = true) (h2 : hueLe rev b c = true) : hueLe rev a c = true := by
  cases rev <;> simp [hueLe] at h1 h2 ⊢ <;> omega

/-- The hue comparison is total. -/
theorem hueLe_total (rev : Bool) (a b : RGBA) : (hueLe rev a b || hueLe rev b a) = true := by
  cases rev <;> simp [hueLe] <;> omega

/-- Claim C5 (amended): spans of length <= 1 are skipped, leaving the
grid unchanged; and for every span of length > 1 (within bounds, among
pairwise-disjoint spans) whose source pixels all have nonzero alpha,
`sortSpans` writes back at the span's coordinates a permutation of the
span's source pixels ordered by non-increasing `getHue` when `reverse`
is false and non-decreasing `getHue` when it is true. (The nonzero-alpha
proviso is forced by the magenta substitution of claim C8.) -/
theorem C5_sorted_spans (src : Grid) (rev : Bool) :
    (∀ s : Span, s.len ≤ 1 → sortSpans src [s] rev = src)
    ∧ ∀ (spans : List Span) (s : Span),
        s ∈ spans → List.Pairwise spanDisjoint spans → 1 < s.len →
        s.row < src.length → s.idx + s.len ≤ (src[s.row]?.getD []).length →
        (∀ p ∈ spanPixels src s, p.a ≠ 0) →
        (spanPixels (sortSpans src spans rev) s).Perm (spanPixels src s)
        ∧ List.Pairwise
            (fun a b => if rev = true then getHue a ≤ getHue b else getHue b ≤ getHue a)
            (spanPixels (sortSpans src spans rev) s) := by
  constructor
  · intro s hs
    simp [sortSpans, Nat.not_lt.mpr hs]
  · intro spans s hmem hdisj hlen hrow hbound halpha
    have hkey := spanPixels_sortSpans src rev spans s hmem hdisj hlen hrow hbound
    have hperm : (sortPixels rev (spanPixels src s)).Perm (spanPixels src s) :=
      List.mergeSort_perm _ _
    have hsub : (sortPixels rev (spanPixels src s)).map substPix
        = sortPixels rev (spanPixels src s) := by
      have hid : ∀ p ∈ sortPixels rev (spanPixels src s), substPix p = id p := by
        intro p hp
        have hpa : p.a ≠ 0 := halpha p (hperm.mem_iff.1 hp)
        simp [substPix, hpa]
      rw [List.map_congr_left hid, List.map_id]
    rw [hkey, hsub]
    refine ⟨hperm, ?_⟩
    have hsorted := List.sorted_mergeSort
      (fun a b c h1 h2 => hueLe_trans rev a b c h1 h2)
      (fun a b => hueLe_total rev a b)
      (spanPixels src s)
    refine hsorted.imp ?_
    intro a b h
    cases rev
    · simpa [hueLe] using h
    · simpa [hueLe] using h

/-- Claim C6: the compositing step keeps the source's bounds, composing
with an empty span list returns the source unchanged, and every position
not covered by any span retains the source's pixel. -/
theorem C6_composition (src : Grid) (spans : List Span) (rev : Bool) :
    sortSpans src [] rev = src
    ∧ (sortSpans src spans rev).length = src.length
    ∧ (∀ y : Nat, ((sortSpans src spans rev)[y]?).map List.length = (src[y]?).map List.length)
    ∧ ∀ x y : Nat, (∀ s ∈ spans, ¬ spanCovers s x y) →
        pixAt (sortSpans src spans rev) x y = pixAt src x y := by
  refine ⟨rfl, (sortSpans_shape_aux src rev spans src).1,
    (sortSpans_shape_aux src rev spans src).2, ?_⟩
  intro x y h
  exact sortSpans_untouched_aux src rev spans src x y h

/-- Claim C8: in the output of `sortSpans`, every span position whose
hue-sorted pixel has alpha 0 holds the magenta sentinel RGBA
(255, 0, 255, 255) instead of the transparent pixel. -/
theorem C8_magenta (src : Grid) (spans : List Span) (rev : Bool) (s : Span)
    (j : Nat) (c : RGBA)
    (hmem : s ∈ spans) (hdisj : List.Pairwise spanDisjoint spans)
    (hlen : 1 < s.len) (hrow : s.row < src.length)
    (hbound : s.idx + s.len ≤ (src[s.row]?.getD []).length)
    (hc : (sortPixels rev (spanPixels src s))[j]? = some c)
    (ha : c.a = 0) :
    pixAt (sortSpans src spans rev) (s.idx + j) s.row = RGBAMagenta := by
  rw [sortSpans_writes src rev spans s hmem hdisj hlen hrow hbound j c hc]
  simp [substPix, ha]

/-- Concrete hue comparison between a transparent black pixel and an
opaque one of hue 210. -/
theorem hueLe_pair_eval : hueLe false ⟨0, 0, 0, 0⟩ ⟨10, 20, 30, 255⟩ = false := by
  have h1 : getHue ⟨0, 0, 0, 0⟩ = 0 := by
    norm_num [getHue, getHue16, chan16]
  have h2 : getHue ⟨10, 20, 30, 255⟩ = 210 := by
    norm_num [getHue, getHue16, hueRat, chan16, min_def, max_def, round_eq]
  simp [hueLe, h1, h2]

/-- Concrete sort of the two pixels: the hue-210 pixel comes first. -/
theorem sortPixels_pair_eval :
    sortPixels false [⟨0, 0, 0, 0⟩, ⟨10, 20, 30, 255⟩]
      = [⟨10, 20, 30, 255⟩, ⟨0, 0, 0, 0⟩] := by
  simp [sortPixels, List.mergeSort, List.merge, hueLe_pair_eval]

/-- The gathered pixels of the concrete length-2 span. -/
theorem spanPixels_pair_eval :
    spanPixels [[⟨0, 0, 0, 0⟩, ⟨10, 20, 30, 255⟩]] ⟨RGBAWhite, 0, 0, 2⟩
      = [⟨0, 0, 0, 0⟩, ⟨10, 20, 30, 255⟩] := by
  decide

/-- The concrete output grid: the transparent pixel is written back as
the magenta sentinel. -/
theorem sortSpans_pair_eval :
    sortSpans [[⟨0, 0, 0, 0⟩, ⟨10, 20, 30, 255⟩]] [⟨RGBAWhite, 0, 0, 2⟩] false
      = [[⟨10, 20, 30, 255⟩, RGBAMagenta]] := by
  have hstep : sortSpans [[⟨0, 0, 0, 0⟩, ⟨10, 20, 30, 255⟩]] [⟨RGBAWhite, 0, 0, 2⟩] false
      = writeSpanAux 0 0
          (sortPixels false
            (spanPixels [[⟨0, 0, 0, 0⟩, ⟨10, 20, 30, 255⟩]] ⟨RGBAWhite, 0, 0, 2⟩))
          [[⟨0, 0, 0, 0⟩, ⟨10, 20, 30, 255⟩]] := by
    simp [sortSpans]
  rw [hstep, spanPixels_pair_eval, sortPixels_pair_eval]
  decide

/-- Claim C5 counterexample: a length-2 span containing a fully
transparent pixel. The written-back pixels are not a permutation of the
span's source pixels: the transparent pixel is replaced by the magenta
sentinel, which does not occur in the source span. -/
theorem C5_counterexample :
    ¬ (spanPixels
        (sortSpans [[⟨0, 0, 0, 0⟩, ⟨10, 20, 30, 255⟩]] [⟨RGBAWhite, 0, 0, 2⟩] false)
        ⟨RGBAWhite, 0, 0, 2⟩).Perm
      (spanPixels [[⟨0, 0, 0, 0⟩, ⟨10, 20, 30, 255⟩]] ⟨RGBAWhite, 0, 0, 2⟩) := by
  intro hperm
  rw [sortSpans_pair_eval, spanPixels_pair_eval] at hperm
  have hmag : RGBAMagenta ∈ spanPixels [[⟨10, 20, 30, 255⟩, RGBAMagenta]] ⟨RGBAWhite, 0, 0, 2⟩ := by
    decide
  have : RGBAMagenta ∈ [(⟨0, 0, 0, 0⟩ : RGBA), ⟨10, 20, 30, 255⟩] := hperm.mem_iff.1 hmag
  revert this
  decide

/-- Witness for C5 on a span of two opaque pixels. -/
theorem C5_sorted_spans_witness :
    (spanPixels
        (sortSpans [[⟨255, 0, 0, 255⟩, ⟨0, 0, 255, 255⟩]] [⟨RGBAWhite, 0, 0, 2⟩] false)
        ⟨RGBAWhite, 0, 0, 2⟩).Perm
      (spanPixels [[⟨255, 0, 0, 255⟩, ⟨0, 0, 255, 255⟩]] ⟨RGBAWhite, 0, 0, 2⟩)
    ∧ List.Pairwise
        (fun a b => if false = true then getHue a ≤ getHue b else getHue b ≤ getHue a)
        (spanPixels
          (sortSpans [[⟨255, 0, 0, 255⟩, ⟨0, 0, 255, 255⟩]] [⟨RGBAWhite, 0, 0, 2⟩] false)
          ⟨RGBAWhite, 0, 0, 2⟩) :=
  (C5_sorted_spans [[⟨255, 0, 0, 255⟩, ⟨0, 0, 255, 255⟩]] false).2
    [⟨RGBAWhite, 0, 0, 2⟩] ⟨RGBAWhite, 0, 0, 2⟩
    (by decide) (by simp) (by decide) (by decide) (by decide) (by decide)

/-- Witness for C6: a position no span covers keeps its source pixel. -/
theorem C6_composition_witness :
    pixAt (sortSpans [[(⟨1, 2, 3, 4⟩ : RGBA)]] [⟨RGBAWhite, 5, 0, 3⟩] false) 0 0
      = pixAt [[(⟨1, 2, 3, 4⟩ : RGBA)]] 0 0 :=
  (C6_composition [[⟨1, 2, 3, 4⟩]] [⟨RGBAWhite, 5, 0, 3⟩] false).2.2.2 0 0
    (by simp [spanCovers])

/-- Witness for C8: the transparent pixel's slot holds magenta. -/
theorem C8_magenta_witness :
    pixAt (sortSpans [[⟨0, 0, 0, 0⟩, ⟨10, 20, 30, 255⟩]] [⟨RGBAWhite, 0, 0, 2⟩] false)
      (0 + 1) 0 = RGBAMagenta :=
  C8_magenta [[⟨0, 0, 0, 0⟩, ⟨10, 20, 30, 255⟩]] [⟨RGBAWhite, 0, 0, 2⟩] false
    ⟨RGBAWhite, 0, 0, 2⟩ 1 ⟨0, 0, 0, 0⟩
    (by decide) (by simp) (by decide) (by decide) (by decide)
    (by rw [spanPixels_pair_eval, sortPixels_pair_eval]; rfl) rfl
